import Mathlib

/-!
Verification of the JXL container-to-codestream extractor
(`scripts/jxl_container_fixer.py`).

The program is embedded shallowly: a file is a `List Nat` of byte values, a
Python file object is a pair of the contents and a cursor position, and
`f.read` / `f.seek` become the pure function `fread` and explicit position
passing.  `read_box` and the body of `extract_codestream` are translated
statement by statement; the `while True` box loop becomes the fuel-indexed
`collectLoop` (the source loop can genuinely fail to terminate on a box of
declared size zero, which the fuel models as `none`).  The broad
`try/except` of the source becomes an `Except Unit` error channel caught at
the top of `extract_codestream`.
-/

namespace JxlContainerFixer

/-- Big-endian value of a byte string, as computed by `struct.unpack` with
format `>I` or `>Q`. -/
def beVal (bs : List Nat) : Nat := bs.foldl (fun a b => a * 256 + b) 0

/-- Big-endian 4-byte encoding of a 32-bit value (used to build test inputs). -/
def be32 (n : Nat) : List Nat :=
  [n / 2 ^ 24 % 256, n / 2 ^ 16 % 256, n / 2 ^ 8 % 256, n % 256]

/-- Big-endian 8-byte encoding of a 64-bit value (extended box sizes). -/
def be64 (n : Nat) : List Nat :=
  [n / 2 ^ 56 % 256, n / 2 ^ 48 % 256, n / 2 ^ 40 % 256, n / 2 ^ 32 % 256,
   n / 2 ^ 24 % 256, n / 2 ^ 16 % 256, n / 2 ^ 8 % 256, n % 256]

/-- Python's `f.read(n)` for `n ≥ -1`: return `min(n, remaining)` bytes from
the current position and advance it by the number of bytes actually read;
`n = -1` reads everything up to end of file.  `BufferedReader.read` raises
`ValueError` for any `n < -1`; the only call sites that can produce such a
count — the payload reads in `collectStep` — model that raise explicitly
before calling `fread`, so `fread` itself is only ever applied to
`n ≥ -1`. -/
def fread (inp : List Nat) (pos : Nat) (n : Int) : List Nat × Nat :=
  let avail := inp.length - pos
  let k := if n < 0 then avail else min n.toNat avail
  ((inp.drop pos).take k, pos + k)

/-- Result of `read_box`: `eof` when fewer than 4 size bytes remain (the
normal loop-termination condition), `err` when `struct.unpack` raises on a
short extended-size read, or a parsed header carrying the type tag, resolved
size, header length, start offset (`f.tell() - header_size`, an integer that
can be negative on a truncated header) and the position after the header. -/
inductive ReadBoxRes where
  | eof : ReadBoxRes
  | err : ReadBoxRes
  | box (type_tag : List Nat) (size : Nat) (header_size : Nat)
        (start : Int) (pos : Nat) : ReadBoxRes
deriving DecidableEq

/-- Translation of `read_box`: read a 4-byte big-endian size, then a 4-byte
type tag; a size field equal to 1 is followed by an 8-byte big-endian
extended size and makes the header length 16 instead of 8. -/
def read_box (inp : List Nat) (pos : Nat) : ReadBoxRes :=
  let r1 := fread inp pos 4
  if r1.1.length < 4 then .eof
  else
    let size := beVal r1.1
    let r2 := fread inp r1.2 4
    if size = 1 then
      let r3 := fread inp r2.2 8
      if r3.1.length < 8 then .err
      else .box r2.1 (beVal r3.1) 16 ((r3.2 : Int) - 16) r3.2
    else .box r2.1 size 8 ((r2.2 : Int) - 8) r2.2

/-- Byte values of the 4-byte tag `b"jxlc"`. -/
def jxlcTag : List Nat := [106, 120, 108, 99]

/-- Byte values of the 4-byte tag `b"jxlp"`. -/
def jxlpTag : List Nat := [106, 120, 108, 112]

/-- One iteration of the collection loop of `extract_codestream`:
`eof` breaks the loop, `err` raises (short index read, or a negative seek
target), `last seg` appends a segment and breaks (the `jxlc` branch),
`next seg pos` optionally appends a segment and continues from `pos`
(the `jxlp` branch and the skip branch). -/
inductive StepRes where
  | eof (pos : Nat) : StepRes
  | err : StepRes
  | last (seg : Nat × List Nat) : StepRes
  | next (seg : Option (Nat × List Nat)) (pos : Nat) : StepRes
deriving DecidableEq

/-- Body of one iteration of the `while True` loop in `extract_codestream`:
dispatch on the box type read by `read_box`, reading a `jxlc` payload of
`size - header_size` bytes (and stopping), a `jxlp` index and payload of
`size - header_size - 4` bytes (and continuing), or seeking to
`box_start + size` for any other tag.  A payload read count of exactly -1
falls through to `fread`'s read-to-EOF behaviour (Python's `read(-1)`); a
count below -1 makes `BufferedReader.read` raise `ValueError`, modelled as
`err` before the read, as is a negative seek target. -/
def collectStep (inp : List Nat) (pos : Nat) : StepRes :=
  match read_box inp pos with
  | .eof => .eof pos
  | .err => .err
  | .box t size header start posA =>
    if t = jxlcTag then
      if (size : Int) - header < -1 then .err
      else .last (0, (fread inp posA ((size : Int) - header)).1)
    else if t = jxlpTag then
      let ri := fread inp posA 4
      if ri.1.length < 4 then .err
      else if (size : Int) - header - 4 < -1 then .err
      else
        let rd := fread inp ri.2 ((size : Int) - header - 4)
        .next (some (beVal ri.1, rd.1)) rd.2
    else
      let target := start + (size : Int)
      if target < 0 then .err
      else .next none target.toNat

/-- Outcome of the whole collection loop: the accumulated
`codestream_parts`, an exception, or `spin` when the fuel ran out (the
source loop does not terminate on such inputs). -/
inductive LoopRes where
  | done (parts : List (Nat × List Nat)) : LoopRes
  | err : LoopRes
  | spin : LoopRes
deriving DecidableEq

/-- Fuel-indexed iteration of `collectStep`, accumulating
`codestream_parts` in file order. -/
def collectLoop (inp : List Nat) : Nat → Nat → List (Nat × List Nat) → LoopRes
  | 0, _, _ => .spin
  | fuel + 1, pos, parts =>
    match collectStep inp pos with
    | .eof _ => .done parts
    | .err => .err
    | .last seg => .done (parts ++ [seg])
    | .next seg p2 => collectLoop inp fuel p2 (parts ++ seg.toList)

/-- Ordering used by `codestream_parts.sort(key=lambda x: x[0])`: ascending
by the index component. -/
def idxLe (a b : Nat × List Nat) : Prop := a.1 ≤ b.1

instance : DecidableRel idxLe := fun a b => Nat.decLe a.1 b.1

instance : IsTotal (Nat × List Nat) idxLe := ⟨fun a b => Nat.le_total a.1 b.1⟩

instance : IsTrans (Nat × List Nat) idxLe := ⟨fun _ _ _ h1 h2 => Nat.le_trans h1 h2⟩

/-- Merging step of `extract_codestream`: when more than one part was
collected, sort the parts stably ascending by index (Python's `list.sort`
is a stable ascending sort, embedded here as insertion sort), then
concatenate the payloads with `b"".join`. -/
def mergeParts (parts : List (Nat × List Nat)) : List Nat :=
  let sorted := if 1 < parts.length then List.insertionSort idxLe parts else parts
  (sorted.map Prod.snd).flatten

/-- Observable outcome of one call to `extract_codestream`: the bytes
written to the output path, if any, and the returned boolean. -/
structure ExtractResult where
  output : Option (List Nat)
  ok : Bool
deriving DecidableEq

/-- Body of `extract_codestream` inside the `try` block: the written output
(if any) together with either the returned boolean or an uncaught
exception; `none` models non-termination of the box loop. -/
def extractBody (fuel : Nat) (inp : List Nat) : Option (Option (List Nat) × Except Unit Bool) :=
  let rs := fread inp 0 12
  if rs.1.take 4 = [0, 0, 0, 12] then
    match collectLoop inp fuel rs.2 [] with
    | .spin => none
    | .err => some (none, .error ())
    | .done parts =>
      if parts = [] then some (none, .ok false)
      else
        let cs := mergeParts parts
        some (some cs, .ok (if cs.take 2 = [255, 10] then true else false))
  else if rs.1.take 2 = [255, 10] then
    some (some (fread inp 0 (-1)).1, .ok true)
  else
    some (none, .ok false)

/-- Translation of `extract_codestream`: the surrounding `try/except`
maps any exception escaping the body to the return value `False`, leaving
any already-written output in place. -/
def extract_codestream (fuel : Nat) (inp : List Nat) : Option ExtractResult :=
  match extractBody fuel inp with
  | none => none
  | some (out, .ok b) => some ⟨out, b⟩
  | some (out, .error _) => some ⟨out, false⟩

/-- Abstract description of one box of a container input, used to quantify
over container files: a complete-codestream box, a partial-codestream box
with its index, or a box of any other type. -/
inductive BoxSpec where
  | jxlc (payload : List Nat) : BoxSpec
  | jxlp (index : Nat) (payload : List Nat) : BoxSpec
  | other (tag : List Nat) (payload : List Nat) : BoxSpec
deriving DecidableEq

/-- Serialization of one `BoxSpec` as a (non-extended-size) ISOBMFF box:
4-byte big-endian total size, 4-byte tag, then the payload (a `jxlp`
payload is preceded by its 4-byte big-endian index). -/
def serializeBox : BoxSpec → List Nat
  | .jxlc p => be32 (8 + p.length) ++ jxlcTag ++ p
  | .jxlp i p => be32 (12 + p.length) ++ jxlpTag ++ be32 i ++ p
  | .other t p => be32 (8 + p.length) ++ t ++ p

/-- Concatenated serialization of a list of boxes. -/
def boxBytes (specs : List BoxSpec) : List Nat := (specs.map serializeBox).flatten

/-- Well-formedness of a box description: sizes fit in the 32-bit size
field, an `other` tag is 4 bytes long and is neither `jxlc` nor `jxlp`. -/
def WFBox : BoxSpec → Prop
  | .jxlc p => 8 + p.length < 2 ^ 32
  | .jxlp i p => 12 + p.length < 2 ^ 32 ∧ i < 2 ^ 32
  | .other t p => 8 + p.length < 2 ^ 32 ∧ t.length = 4 ∧ t ≠ jxlcTag ∧ t ≠ jxlpTag

instance : DecidablePred WFBox := fun s =>
  match s with
  | .jxlc p => inferInstanceAs (Decidable (8 + p.length < 2 ^ 32))
  | .jxlp i p => inferInstanceAs (Decidable (12 + p.length < 2 ^ 32 ∧ i < 2 ^ 32))
  | .other t p => inferInstanceAs
      (Decidable (8 + p.length < 2 ^ 32 ∧ t.length = 4 ∧ t ≠ jxlcTag ∧ t ≠ jxlpTag))

/-- Segment contributed by one box, in file order. -/
def segOf : BoxSpec → List (Nat × List Nat)
  | .jxlc p => [(0, p)]
  | .jxlp i p => [(i, p)]
  | .other _ _ => []

/-- Segments contributed by a list of boxes, in file order. -/
def fileSegs (specs : List BoxSpec) : List (Nat × List Nat) := (specs.map segOf).flatten

/-- First 12 bytes of a container file: the fixed 4-byte pattern
`00 00 00 0C` followed by 8 further signature bytes. -/
def containerSig (hdr : List Nat) : List Nat := [0, 0, 0, 12] ++ hdr

/-- Container file consisting of the 12-byte signature followed by the
serialized boxes. -/
def mkContainer (hdr : List Nat) (specs : List BoxSpec) : List Nat :=
  containerSig hdr ++ boxBytes specs

/-- Specification-side description of the assembled codestream: the
concatenation of the segment payloads sorted (stably) ascending by index. -/
def sortedConcat (segs : List (Nat × List Nat)) : List Nat :=
  ((List.insertionSort idxLe segs).map Prod.snd).flatten

/-! Basic facts about the byte encodings and `fread`. -/

lemma be32_length (n : Nat) : (be32 n).length = 4 := rfl

lemma be64_length (n : Nat) : (be64 n).length = 8 := rfl

lemma beVal_be32 (n : Nat) (h : n < 2 ^ 32) : beVal (be32 n) = n := by
  simp only [beVal, be32, List.foldl]
  omega

lemma beVal_be64 (n : Nat) (h : n < 2 ^ 64) : beVal (be64 n) = n := by
  simp only [beVal, be64, List.foldl]
  omega

lemma fread_at (inp pre mid tail : List Nat) (pos : Nat) (n : Int)
    (hinp : inp = pre ++ (mid ++ tail)) (hpos : pos = pre.length)
    (hn : n = (mid.length : Int)) :
    fread inp pos n = (mid, pos + mid.length) := by
  subst hinp hpos hn
  have h1 : (pre ++ (mid ++ tail)).drop pre.length = mid ++ tail :=
    List.drop_left pre (mid ++ tail)
  have h2 : (mid ++ tail).take mid.length = mid := List.take_left mid tail
  have hk : (if (mid.length : Int) < 0 then (pre ++ (mid ++ tail)).length - pre.length
      else min ((mid.length : Int)).toNat ((pre ++ (mid ++ tail)).length - pre.length))
      = mid.length := by
    rw [if_neg (by omega)]
    simp only [List.length_append]
    omega
  simp only [fread, hk, h1, h2]

lemma fread_rest (inp pre rest : List Nat) (pos : Nat) (n : Int)
    (hinp : inp = pre ++ rest) (hpos : pos = pre.length)
    (hn : (rest.length : Int) ≤ n) :
    fread inp pos n = (rest, pos + rest.length) := by
  subst hinp hpos
  have h1 : (pre ++ rest).drop pre.length = rest := List.drop_left pre rest
  have hk : (if n < 0 then (pre ++ rest).length - pre.length
      else min n.toNat ((pre ++ rest).length - pre.length)) = rest.length := by
    rw [if_neg (by omega)]
    simp only [List.length_append]
    omega
  simp only [fread, hk, h1, List.take_length]

lemma fread_eof (inp : List Nat) (pos : Nat) (n : Int) (h : inp.length ≤ pos) :
    fread inp pos n = ([], pos) := by
  have h0 : inp.length - pos = 0 := Nat.sub_eq_zero_of_le h
  have hk : (if n < 0 then inp.length - pos else min n.toNat (inp.length - pos)) = 0 := by
    rw [h0]; split <;> simp
  simp only [fread, hk, List.take_zero, Nat.add_zero]

lemma fread_all (inp : List Nat) : fread inp 0 (-1) = (inp, inp.length) := by
  simp [fread]

lemma fread_sig (inp : List Nat) : fread inp 0 12 = (inp.take 12, min 12 inp.length) := by
  have hk : (if (12 : Int) < 0 then inp.length - 0 else min (12 : Int).toNat (inp.length - 0))
      = min 12 inp.length := by
    rw [if_neg (by omega)]
    norm_num
    omega
  have ht : inp.take (min 12 inp.length) = inp.take 12 := by
    rcases le_total inp.length 12 with h | h
    · rw [min_eq_right h, List.take_length, List.take_of_length_le h]
    · rw [min_eq_left h]
  simp only [fread, hk, List.drop_zero, Nat.zero_add, ht]

/-! Facts about `read_box`. -/

lemma read_box_at (inp pre s4 tag tail : List Nat) (pos : Nat)
    (hinp : inp = pre ++ s4 ++ tag ++ tail) (hpos : pos = pre.length)
    (hs4 : s4.length = 4) (h4 : tag.length = 4) (hne1 : beVal s4 ≠ 1) :
    read_box inp pos = .box tag (beVal s4) 8 (pos : Int) (pos + 8) := by
  have hf1 : fread inp pos 4 = (s4, pos + 4) := by
    have h := fread_at inp pre s4 (tag ++ tail) pos 4 (by simp [hinp]) hpos (by simp [hs4])
    rw [hs4] at h; exact h
  have hf2 : fread inp (pos + 4) 4 = (tag, pos + 4 + 4) := by
    have h := fread_at inp (pre ++ s4) tag tail (pos + 4) 4 (by simp [hinp])
      (by simp [hpos, hs4]) (by simp [h4])
    rw [h4] at h; exact h
  simp only [read_box, hf1, hf2, hs4, lt_irrefl, if_false, if_neg hne1]
  simp only [ReadBoxRes.box.injEq, true_and, and_true]
  push_cast
  omega

lemma read_box_at32 (inp pre tag tail : List Nat) (sz : Nat) (pos : Nat)
    (hinp : inp = pre ++ be32 sz ++ tag ++ tail) (hpos : pos = pre.length)
    (h4 : tag.length = 4) (hsz : sz < 2 ^ 32) (hne1 : sz ≠ 1) :
    read_box inp pos = .box tag sz 8 (pos : Int) (pos + 8) := by
  have h := read_box_at inp pre (be32 sz) tag tail pos hinp hpos (be32_length sz) h4
    (by rw [beVal_be32 sz hsz]; exact hne1)
  rw [beVal_be32 sz hsz] at h
  exact h

lemma read_box_ext (inp pre tag tail : List Nat) (v : Nat) (pos : Nat)
    (hinp : inp = pre ++ be32 1 ++ tag ++ be64 v ++ tail) (hpos : pos = pre.length)
    (h4 : tag.length = 4) (hv : v < 2 ^ 64) :
    read_box inp pos = .box tag v 16 (pos : Int) (pos + 16) := by
  have hf1 : fread inp pos 4 = (be32 1, pos + 4) := by
    have h := fread_at inp pre (be32 1) (tag ++ (be64 v ++ tail)) pos 4 (by simp [hinp])
      hpos (by simp [be32_length])
    rw [be32_length] at h; exact h
  have hf2 : fread inp (pos + 4) 4 = (tag, pos + 4 + 4) := by
    have h := fread_at inp (pre ++ be32 1) tag (be64 v ++ tail) (pos + 4) 4 (by simp [hinp])
      (by simp [hpos, be32_length]) (by simp [h4])
    rw [h4] at h; exact h
  have hf3 : fread inp (pos + 4 + 4) 8 = (be64 v, pos + 4 + 4 + 8) := by
    have h := fread_at inp (pre ++ be32 1 ++ tag) (be64 v) tail (pos + 4 + 4) 8
      (by simp [hinp]) (by simp [hpos, be32_length, h4]) (by simp [be64_length])
    rw [be64_length] at h; exact h
  have hb1 : beVal (be32 1) = 1 := beVal_be32 1 (by norm_num)
  simp only [read_box, hf1, hf2, hf3, be32_length, be64_length, lt_irrefl, if_false, hb1,
    if_true, beVal_be64 v hv]
  simp only [ReadBoxRes.box.injEq, true_and, and_true]
  push_cast
  omega

lemma read_box_eof (inp : List Nat) (pos : Nat) (h : inp.length < pos + 4) :
    read_box inp pos = .eof := by
  have hlen : ((inp.drop pos).take (if (4 : Int) < 0 then inp.length - pos
      else min (4 : Int).toNat (inp.length - pos))).length < 4 := by
    rw [if_neg (by omega)]
    simp only [List.length_take, List.length_drop]
    omega
  simp only [read_box, fread, if_pos hlen]

/-! Facts about one iteration of the collection loop. -/

lemma jxlcTag_length : jxlcTag.length = 4 := rfl

lemma jxlpTag_length : jxlpTag.length = 4 := rfl

lemma collectStep_eof (inp : List Nat) (pos : Nat) (h : inp.length ≤ pos) :
    collectStep inp pos = .eof pos := by
  simp only [collectStep, read_box_eof inp pos (by omega)]

lemma collectStep_other (inp pre tail t p : List Nat) (pos : Nat)
    (hinp : inp = pre ++ serializeBox (.other t p) ++ tail) (hpos : pos = pre.length)
    (hwf : WFBox (.other t p)) :
    collectStep inp pos = .next none (pos + (serializeBox (BoxSpec.other t p)).length) := by
  have hwf' : 8 + p.length < 2 ^ 32 ∧ t.length = 4 ∧ t ≠ jxlcTag ∧ t ≠ jxlpTag := hwf
  obtain ⟨hsz, h4, hnc, hnp⟩ := hwf'
  have hrb : read_box inp pos = .box t (8 + p.length) 8 (pos : Int) (pos + 8) :=
    read_box_at32 inp pre t (p ++ tail) (8 + p.length) pos
      (by simp [hinp, serializeBox]) hpos h4 hsz (by omega)
  have hlen : (serializeBox (BoxSpec.other t p)).length = 8 + p.length := by
    simp only [serializeBox, List.length_append, be32_length, h4] <;> omega
  simp only [collectStep, hrb]
  rw [if_neg hnc, if_neg hnp, if_neg (by omega)]
  simp only [StepRes.next.injEq, true_and, hlen] <;> omega

lemma collectStep_jxlp (inp pre tail p : List Nat) (i : Nat) (pos : Nat)
    (hinp : inp = pre ++ serializeBox (.jxlp i p) ++ tail) (hpos : pos = pre.length)
    (hwf : WFBox (.jxlp i p)) :
    collectStep inp pos
      = .next (some (i, p)) (pos + (serializeBox (BoxSpec.jxlp i p)).length) := by
  have hwf' : 12 + p.length < 2 ^ 32 ∧ i < 2 ^ 32 := hwf
  have hrb : read_box inp pos = .box jxlpTag (12 + p.length) 8 (pos : Int) (pos + 8) :=
    read_box_at32 inp pre jxlpTag (be32 i ++ (p ++ tail)) (12 + p.length) pos
      (by simp [hinp, serializeBox]) hpos jxlpTag_length hwf'.1 (by omega)
  have hfi : fread inp (pos + 8) 4 = (be32 i, pos + 8 + 4) := by
    have h := fread_at inp (pre ++ be32 (12 + p.length) ++ jxlpTag) (be32 i) (p ++ tail)
      (pos + 8) 4 (by simp [hinp, serializeBox])
      (by simp only [List.length_append, be32_length, jxlpTag_length, hpos] <;> omega)
      (by simp [be32_length])
    rw [be32_length] at h; exact h
  have hfd : fread inp (pos + 8 + 4) (((12 + p.length : Nat) : Int) - 8 - 4)
      = (p, pos + 8 + 4 + p.length) :=
    fread_at inp (pre ++ be32 (12 + p.length) ++ jxlpTag ++ be32 i) p tail
      (pos + 8 + 4) _ (by simp [hinp, serializeBox])
      (by simp only [List.length_append, be32_length, jxlpTag_length, hpos] <;> omega)
      (by push_cast; omega)
  have hlen : (serializeBox (BoxSpec.jxlp i p)).length = 12 + p.length := by
    simp only [serializeBox, List.length_append, be32_length, jxlpTag_length] <;> omega
  simp only [collectStep, hrb, Nat.cast_ofNat]
  simp only [hfi, be32_length, lt_irrefl, if_false, hfd, beVal_be32 i hwf'.2]
  rw [if_neg (by decide), if_pos trivial, if_neg (by push_cast; omega)]
  simp only [StepRes.next.injEq, Option.some.injEq, Prod.mk.injEq, true_and, hlen] <;> omega

lemma collectStep_jxlc (inp pre tail p : List Nat) (pos : Nat)
    (hinp : inp = pre ++ serializeBox (.jxlc p) ++ tail) (hpos : pos = pre.length)
    (hsz : 8 + p.length < 2 ^ 32) :
    collectStep inp pos = .last (0, p) := by
  have hrb : read_box inp pos = .box jxlcTag (8 + p.length) 8 (pos : Int) (pos + 8) :=
    read_box_at32 inp pre jxlcTag (p ++ tail) (8 + p.length) pos
      (by simp [hinp, serializeBox]) hpos jxlcTag_length hsz (by omega)
  have hfd : fread inp (pos + 8) (((8 + p.length : Nat) : Int) - 8)
      = (p, pos + 8 + p.length) :=
    fread_at inp (pre ++ be32 (8 + p.length) ++ jxlcTag) p tail (pos + 8) _
      (by simp [hinp, serializeBox])
      (by simp only [List.length_append, be32_length, jxlcTag_length, hpos] <;> omega)
      (by push_cast; omega)
  simp only [collectStep, hrb, Nat.cast_ofNat, if_true, if_false]
  rw [if_neg (by push_cast; omega)]
  simp only [hfd]

/-! Facts about the whole collection loop. -/

lemma collectLoop_succ (inp : List Nat) (fuel pos : Nat) (parts : List (Nat × List Nat)) :
    collectLoop inp (fuel + 1) pos parts
      = match collectStep inp pos with
        | .eof _ => .done parts
        | .err => .err
        | .last seg => .done (parts ++ [seg])
        | .next seg p2 => collectLoop inp fuel p2 (parts ++ seg.toList) := rfl

lemma collectLoop_eof (inp : List Nat) (fuel pos : Nat) (parts : List (Nat × List Nat))
    (h : inp.length ≤ pos) :
    collectLoop inp (fuel + 1) pos parts = .done parts := by
  rw [collectLoop_succ, collectStep_eof inp pos h]

lemma collectLoop_jxlc (inp pre tail p : List Nat) (parts : List (Nat × List Nat)) (fuel : Nat)
    (hinp : inp = pre ++ serializeBox (.jxlc p) ++ tail) (hsz : 8 + p.length < 2 ^ 32) :
    collectLoop inp (fuel + 1) pre.length parts = .done (parts ++ [(0, p)]) := by
  rw [collectLoop_succ, collectStep_jxlc inp pre tail p pre.length hinp rfl hsz]

lemma collectLoop_skips (specs : List BoxSpec) :
    ∀ (inp pre tail : List Nat) (parts : List (Nat × List Nat)) (fuel : Nat),
    (∀ s ∈ specs, WFBox s) → (∀ q, BoxSpec.jxlc q ∉ specs) →
    inp = pre ++ boxBytes specs ++ tail →
    collectLoop inp (fuel + specs.length) pre.length parts
      = collectLoop inp fuel (pre.length + (boxBytes specs).length) (parts ++ fileSegs specs) := by
  induction specs with
  | nil =>
    intro inp pre tail parts fuel _ _ _
    simp [boxBytes, fileSegs]
  | cons s rest ih =>
    intro inp pre tail parts fuel hwf hnj hinp
    have hwfs : WFBox s := hwf s (by simp)
    have hwfr : ∀ x ∈ rest, WFBox x := fun x hx => hwf x (by simp [hx])
    have hnjr : ∀ q, BoxSpec.jxlc q ∉ rest := fun q hq => hnj q (by simp [hq])
    have hbb : boxBytes (s :: rest) = serializeBox s ++ boxBytes rest := by
      simp [boxBytes]
    have hfl : fuel + (s :: rest).length = (fuel + rest.length) + 1 := by
      simp only [List.length_cons]; omega
    rw [hfl, collectLoop_succ]
    cases s with
    | jxlc q => exact absurd (by simp) (hnj q)
    | jxlp idx q =>
      have hstep := collectStep_jxlp inp pre (boxBytes rest ++ tail) q idx pre.length
        (by rw [hinp, hbb]; simp) rfl hwfs
      rw [hstep]
      have hpp : pre.length + (serializeBox (BoxSpec.jxlp idx q)).length
          = (pre ++ serializeBox (BoxSpec.jxlp idx q)).length := by
        simp [List.length_append]
      have hih := ih inp (pre ++ serializeBox (BoxSpec.jxlp idx q)) tail
        (parts ++ [(idx, q)]) fuel hwfr hnjr (by rw [hinp, hbb]; simp)
      have hsg : fileSegs (BoxSpec.jxlp idx q :: rest) = (idx, q) :: fileSegs rest := by
        simp [fileSegs, segOf]
      have e1 : (pre ++ serializeBox (BoxSpec.jxlp idx q)).length + (boxBytes rest).length
          = pre.length + (boxBytes (BoxSpec.jxlp idx q :: rest)).length := by
        simp only [boxBytes, List.map_cons, List.flatten_cons, List.length_append] <;> omega
      have e2 : parts ++ [(idx, q)] ++ fileSegs rest
          = parts ++ fileSegs (BoxSpec.jxlp idx q :: rest) := by
        rw [hsg]; simp
      rw [e1, e2] at hih
      simp only [Option.toList_some]
      rw [hpp]
      exact hih
    | other t q =>
      have hstep := collectStep_other inp pre (boxBytes rest ++ tail) t q pre.length
        (by rw [hinp, hbb]; simp) rfl hwfs
      rw [hstep]
      have hpp : pre.length + (serializeBox (BoxSpec.other t q)).length
          = (pre ++ serializeBox (BoxSpec.other t q)).length := by
        simp [List.length_append]
      have hih := ih inp (pre ++ serializeBox (BoxSpec.other t q)) tail
        parts fuel hwfr hnjr (by rw [hinp, hbb]; simp)
      have hsg : fileSegs (BoxSpec.other t q :: rest) = fileSegs rest := by
        simp [fileSegs, segOf]
      have e1 : (pre ++ serializeBox (BoxSpec.other t q)).length + (boxBytes rest).length
          = pre.length + (boxBytes (BoxSpec.other t q :: rest)).length := by
        simp only [boxBytes, List.map_cons, List.flatten_cons, List.length_append] <;> omega
      rw [e1, ← hsg] at hih
      simp only [Option.toList_none, List.append_nil]
      rw [hpp]
      exact hih

/-! Facts about merging and the top-level extractor. -/

lemma mergeParts_eq_sortedConcat (parts : List (Nat × List Nat)) :
    mergeParts parts = sortedConcat parts := by
  rcases parts with _ | ⟨x, _ | ⟨y, t⟩⟩
  · rfl
  · rfl
  · unfold mergeParts sortedConcat
    rw [if_pos (by simp only [List.length_cons]; omega)]

lemma extract_container_eq (fuel : Nat) (inp : List Nat) (hc : inp.take 4 = [0, 0, 0, 12]) :
    extract_codestream fuel inp
      = match collectLoop inp fuel (min 12 inp.length) [] with
        | .spin => none
        | .err => some ⟨none, false⟩
        | .done parts =>
          if parts = [] then some ⟨none, false⟩
          else some ⟨some (mergeParts parts),
                     if (mergeParts parts).take 2 = [255, 10] then true else false⟩ := by
  have h1 : (inp.take 12).take 4 = [0, 0, 0, 12] := by
    rw [List.take_take]
    norm_num
    exact hc
  cases hloop : collectLoop inp fuel (min 12 inp.length) [] with
  | spin => simp [extract_codestream, extractBody, fread_sig, h1, hloop]
  | err => simp [extract_codestream, extractBody, fread_sig, h1, hloop]
  | done parts =>
    by_cases hp : parts = []
    · simp [extract_codestream, extractBody, fread_sig, h1, hloop, hp]
    · simp [extract_codestream, extractBody, fread_sig, h1, hloop, hp]

lemma extract_bare_eq (fuel : Nat) (inp : List Nat) (h2 : inp.take 2 = [255, 10]) :
    extract_codestream fuel inp = some ⟨some inp, true⟩ := by
  have h4 : inp.take 4 ≠ [0, 0, 0, 12] := by
    intro h
    have h' := congrArg (List.take 2) h
    rw [List.take_take] at h'
    norm_num at h'
    rw [h2] at h'
    simp at h'
  have h1 : (inp.take 12).take 4 = inp.take 4 := by rw [List.take_take]; norm_num
  have h22 : (inp.take 12).take 2 = inp.take 2 := by rw [List.take_take]; norm_num
  simp [extract_codestream, extractBody, fread_sig, h1, h22, h2, h4, fread_all]

lemma extract_invalid_eq (fuel : Nat) (inp : List Nat)
    (h4 : inp.take 4 ≠ [0, 0, 0, 12]) (h2 : inp.take 2 ≠ [255, 10]) :
    extract_codestream fuel inp = some ⟨none, false⟩ := by
  have h1 : (inp.take 12).take 4 = inp.take 4 := by rw [List.take_take]; norm_num
  have h22 : (inp.take 12).take 2 = inp.take 2 := by rw [List.take_take]; norm_num
  simp [extract_codestream, extractBody, fread_sig, h1, h22, h2, h4]

lemma extractBody_container_err (fuel : Nat) (inp : List Nat)
    (hc : inp.take 4 = [0, 0, 0, 12])
    (hloop : collectLoop inp fuel (min 12 inp.length) [] = .err) :
    extractBody fuel inp = some (none, .error ()) := by
  have h1 : (inp.take 12).take 4 = [0, 0, 0, 12] := by
    rw [List.take_take]
    norm_num
    exact hc
  simp [extractBody, fread_sig, h1, hloop]

lemma extract_mkContainer (hdr : List Nat) (specs : List BoxSpec) (fuel : Nat)
    (h8 : hdr.length = 8) (hwf : ∀ s ∈ specs, WFBox s)
    (hnj : ∀ q, BoxSpec.jxlc q ∉ specs) :
    extract_codestream (fuel + specs.length + 1) (mkContainer hdr specs)
      = if fileSegs specs = [] then some ⟨none, false⟩
        else some ⟨some (mergeParts (fileSegs specs)),
                   if (mergeParts (fileSegs specs)).take 2 = [255, 10] then true
                   else false⟩ := by
  have hsig : (containerSig hdr).length = 12 := by simp [containerSig, h8]
  have hc : (mkContainer hdr specs).take 4 = [0, 0, 0, 12] := by
    have he : mkContainer hdr specs = [0, 0, 0, 12] ++ (hdr ++ boxBytes specs) := by
      simp [mkContainer, containerSig]
    rw [he]
    exact List.take_left' rfl
  have hmin : min 12 (mkContainer hdr specs).length = (containerSig hdr).length := by
    rw [hsig]
    simp only [mkContainer, List.length_append, hsig]
    omega
  rw [extract_container_eq _ _ hc, hmin,
    show fuel + specs.length + 1 = (fuel + 1) + specs.length by omega,
    collectLoop_skips specs (mkContainer hdr specs) (containerSig hdr) [] [] (fuel + 1)
      hwf hnj (by simp [mkContainer]),
    collectLoop_eof _ _ _ _ (by simp [mkContainer, List.length_append])]
  simp

lemma extract_jxlc_run (hdr : List Nat) (pres : List BoxSpec) (p junk : List Nat) (fuel : Nat)
    (h8 : hdr.length = 8) (hwf : ∀ s ∈ pres, WFBox s) (hnj : ∀ q, BoxSpec.jxlc q ∉ pres)
    (hp : 8 + p.length < 2 ^ 32) :
    extract_codestream (fuel + pres.length + 1)
        (containerSig hdr ++ boxBytes pres ++ serializeBox (.jxlc p) ++ junk)
      = some ⟨some (mergeParts (fileSegs pres ++ [(0, p)])),
              if (mergeParts (fileSegs pres ++ [(0, p)])).take 2 = [255, 10] then true
              else false⟩ := by
  have hsig : (containerSig hdr).length = 12 := by simp [containerSig, h8]
  have hc : (containerSig hdr ++ boxBytes pres ++ serializeBox (.jxlc p) ++ junk).take 4
      = [0, 0, 0, 12] := by
    have he : containerSig hdr ++ boxBytes pres ++ serializeBox (.jxlc p) ++ junk
        = [0, 0, 0, 12] ++ (hdr ++ (boxBytes pres ++ (serializeBox (.jxlc p) ++ junk))) := by
      simp [containerSig]
    rw [he]
    exact List.take_left' rfl
  have hmin : min 12 (containerSig hdr ++ boxBytes pres ++ serializeBox (.jxlc p) ++ junk).length
      = (containerSig hdr).length := by
    rw [hsig]
    simp only [List.length_append, hsig]
    omega
  rw [extract_container_eq _ _ hc, hmin,
    show fuel + pres.length + 1 = (fuel + 1) + pres.length by omega,
    collectLoop_skips pres _ (containerSig hdr) (serializeBox (.jxlc p) ++ junk) [] (fuel + 1)
      hwf hnj (by simp),
    show (containerSig hdr).length + (boxBytes pres).length
        = (containerSig hdr ++ boxBytes pres).length by simp,
    collectLoop_jxlc _ (containerSig hdr ++ boxBytes pres) junk p _ fuel (by simp) hp]
  simp

/-! Order independence of the reassembly for distinct indices. -/

lemma sortedConcat_perm_eq (l1 l2 : List (Nat × List Nat)) (hperm : l1.Perm l2)
    (hnodup : (l1.map Prod.fst).Nodup) :
    sortedConcat l2 = sortedConcat l1 := by
  have hs1 : List.Sorted idxLe (List.insertionSort idxLe l1) :=
    List.sorted_insertionSort idxLe l1
  have hs2 : List.Sorted idxLe (List.insertionSort idxLe l2) :=
    List.sorted_insertionSort idxLe l2
  have hp1 : (List.insertionSort idxLe l1).Perm l1 := List.perm_insertionSort idxLe l1
  have hp2 : (List.insertionSort idxLe l2).Perm l2 := List.perm_insertionSort idxLe l2
  have hpp : (List.insertionSort idxLe l1).Perm (List.insertionSort idxLe l2) :=
    hp1.trans (hperm.trans hp2.symm)
  have hn1 : ((List.insertionSort idxLe l1).map Prod.fst).Nodup :=
    ((hp1.map Prod.fst).nodup_iff).mpr hnodup
  have hn2 : ((List.insertionSort idxLe l2).map Prod.fst).Nodup :=
    ((hpp.map Prod.fst).nodup_iff).mp hn1
  have key : ∀ (l : List (Nat × List Nat)), l.Pairwise idxLe → (l.map Prod.fst).Nodup →
      l.Pairwise (fun a b => a.1 < b.1) := by
    intro l hle hnd
    have hnd' : l.Pairwise (fun a b => a.1 ≠ b.1) := List.pairwise_map.mp hnd
    exact (hle.and hnd').imp (fun h => lt_of_le_of_ne h.1 h.2)
  haveI : IsAntisymm (Nat × List Nat) (fun a b => a.1 < b.1) :=
    ⟨fun a b h1 h2 => absurd (h1.trans h2) (lt_irrefl _)⟩
  have heq : List.insertionSort idxLe l1 = List.insertionSort idxLe l2 :=
    List.eq_of_perm_of_sorted hpp (key _ hs1 hn1) (key _ hs2 hn2)
  unfold sortedConcat
  rw [heq]

lemma fileSegs_perm (s1 s2 : List BoxSpec) (h : s1.Perm s2) :
    (fileSegs s1).Perm (fileSegs s2) := by
  unfold fileSegs
  exact (h.map segOf).flatten

lemma fileSegs_nil_of_other (specs : List BoxSpec)
    (h : ∀ s ∈ specs, ∃ t q, s = .other t q) : fileSegs specs = [] := by
  induction specs with
  | nil => rfl
  | cons s rest ih =>
    obtain ⟨t, q, rfl⟩ := h s (by simp)
    have hr := ih (fun x hx => h x (by simp [hx]))
    simp only [fileSegs, List.map_cons, List.flatten_cons, segOf, List.nil_append]
    simpa only [fileSegs] using hr

lemma mergeParts_single (seg : Nat × List Nat) : mergeParts [seg] = seg.2 := by
  simp [mergeParts]

lemma fread_spec (inp : List Nat) (pos : Nat) (n : Int) :
    (fread inp pos n).2 = pos + (fread inp pos n).1.length
    ∧ (0 ≤ n → ((fread inp pos n).1.length : Int) ≤ n) := by
  simp only [fread, List.length_take, List.length_drop]
  constructor
  · split <;> omega
  · intro h
    rw [if_neg (by omega)]
    omega

lemma read_box_start (inp : List Nat) (pos : Nat) (t : List Nat) (sz hd : Nat)
    (st : Int) (posA : Nat)
    (h : read_box inp pos = .box t sz hd st posA) :
    st = (posA : Int) - hd ∧ 8 ≤ hd := by
  simp only [read_box] at h
  by_cases h1 : (fread inp pos 4).1.length < 4
  · rw [if_pos h1] at h
    exact absurd h (by simp)
  · rw [if_neg h1] at h
    by_cases h2 : beVal (fread inp pos 4).1 = 1
    · rw [if_pos h2] at h
      by_cases h3 : (fread inp (fread inp (fread inp pos 4).2 4).2 8).1.length < 8
      · rw [if_pos h3] at h
        exact absurd h (by simp)
      · rw [if_neg h3] at h
        simp only [ReadBoxRes.box.injEq] at h
        obtain ⟨-, -, hhd, hst, hpA⟩ := h
        subst hhd hst hpA
        exact ⟨by push_cast; ring, by norm_num⟩
    · rw [if_neg h2] at h
      simp only [ReadBoxRes.box.injEq] at h
      obtain ⟨-, -, hhd, hst, hpA⟩ := h
      subst hhd hst hpA
      exact ⟨by push_cast; ring, by norm_num⟩

/-! Claim theorems. -/

/-- C3: for every input whose first two bytes are FF 0A (such an input is
never classified as a container, because the container test requires a
leading 00 byte), `extract_codestream` reports success and the written
output is byte-identical to the entire input. -/
theorem c3_bare_input_copied (fuel : Nat) (inp : List Nat)
    (h : inp.take 2 = [255, 10]) :
    extract_codestream fuel inp = some ⟨some inp, true⟩ :=
  extract_bare_eq fuel inp h

/-- Witness for C3 at the concrete bare codestream FF 0A 2A. -/
theorem c3_witness :
    extract_codestream 0 [255, 10, 42] = some ⟨some [255, 10, 42], true⟩ :=
  c3_bare_input_copied 0 [255, 10, 42] (by decide)

/-- C4: for every container input from which at least one segment is
collected, the merged codestream is written to the output and only then
compared against FF 0A; when that check fails the call reports failure
while the written output stays as it is. -/
theorem c4_write_then_verify (fuel : Nat) (inp : List Nat)
    (parts : List (Nat × List Nat))
    (hc : inp.take 4 = [0, 0, 0, 12])
    (hloop : collectLoop inp fuel (min 12 inp.length) [] = .done parts)
    (hne : parts ≠ []) :
    extract_codestream fuel inp
      = some ⟨some (mergeParts parts),
              if (mergeParts parts).take 2 = [255, 10] then true else false⟩
    ∧ ((mergeParts parts).take 2 ≠ [255, 10] →
        extract_codestream fuel inp = some ⟨some (mergeParts parts), false⟩) := by
  have h := extract_container_eq fuel inp hc
  rw [hloop] at h
  simp only [hne, if_false] at h
  refine ⟨h, fun hb => ?_⟩
  rw [h, if_neg hb]

/-- Witness for C4: a container whose jxlc payload 01 02 03 fails the
magic check; the output is still the written payload, with result false. -/
theorem c4_witness :
    extract_codestream 1
        [0, 0, 0, 12, 74, 88, 76, 32, 13, 10, 135, 10,
         0, 0, 0, 11, 106, 120, 108, 99, 1, 2, 3]
      = some ⟨some [1, 2, 3], false⟩ := by
  have h := (c4_write_then_verify 1
      [0, 0, 0, 12, 74, 88, 76, 32, 13, 10, 135, 10,
       0, 0, 0, 11, 106, 120, 108, 99, 1, 2, 3]
      [(0, [1, 2, 3])] (by decide) (by decide) (by decide)).2 (by decide)
  rw [h]
  decide

/-- C7: an invalid input (neither container nor bare-codestream signature)
and a container input whose box scan ends with zero collected segments
both make `extract_codestream` report failure with no output written. -/
theorem c7_failure_writes_nothing (fuel : Nat) (inp : List Nat) :
    (inp.take 4 ≠ [0, 0, 0, 12] → inp.take 2 ≠ [255, 10] →
      extract_codestream fuel inp = some ⟨none, false⟩)
    ∧ (inp.take 4 = [0, 0, 0, 12] →
        collectLoop inp fuel (min 12 inp.length) [] = .done [] →
        extract_codestream fuel inp = some ⟨none, false⟩) := by
  constructor
  · exact fun h4 h2 => extract_invalid_eq fuel inp h4 h2
  · intro hc hloop
    have h := extract_container_eq fuel inp hc
    rw [hloop] at h
    simpa using h

/-- Witness for C7: an invalid three-byte input, and a container holding a
single unrelated box, both fail without output. -/
theorem c7_witness :
    extract_codestream 5 [1, 2, 3] = some ⟨none, false⟩
    ∧ extract_codestream 2
        [0, 0, 0, 12, 74, 88, 76, 32, 13, 10, 135, 10,
         0, 0, 0, 10, 97, 98, 99, 100, 7, 7]
      = some ⟨none, false⟩ :=
  ⟨(c7_failure_writes_nothing 5 [1, 2, 3]).1 (by decide) (by decide),
   (c7_failure_writes_nothing 2
      [0, 0, 0, 12, 74, 88, 76, 32, 13, 10, 135, 10,
       0, 0, 0, 10, 97, 98, 99, 100, 7, 7]).2 (by decide) (by decide)⟩

/-- C9: the catch-all handler of `extract_codestream` turns any exception
escaping the body (short struct reads, negative seek targets, ValueError
from a negative-length payload read) into the return value False, keeping
whatever output the body had already written (first conjunct); in
particular the ValueError raised by a jxlc payload read of negative
length — a box whose declared size is at most header_size - 2, so that
`size - header_size < -1` — is caught and surfaced as False with no
output written (second conjunct). -/
theorem c9_exception_means_false :
    (∀ (fuel : Nat) (inp : List Nat) (out : Option (List Nat)) (e : Unit),
        extractBody fuel inp = some (out, .error e) →
        extract_codestream fuel inp = some ⟨out, false⟩)
    ∧ (∀ (hdr tail : List Nat) (sz fuel : Nat),
        hdr.length = 8 → sz + 2 ≤ 8 → sz ≠ 1 →
        extractBody (fuel + 1) (containerSig hdr ++ (be32 sz ++ jxlcTag ++ tail))
          = some (none, .error ())
        ∧ extract_codestream (fuel + 1) (containerSig hdr ++ (be32 sz ++ jxlcTag ++ tail))
          = some ⟨none, false⟩) := by
  have part1 : ∀ (fuel : Nat) (inp : List Nat) (out : Option (List Nat)) (e : Unit),
      extractBody fuel inp = some (out, .error e) →
      extract_codestream fuel inp = some ⟨out, false⟩ := by
    intro fuel inp out e h
    simp [extract_codestream, h]
  refine ⟨part1, ?_⟩
  intro hdr tail sz fuel h8 hsz hne1
  have hsig : (containerSig hdr).length = 12 := by simp [containerSig, h8]
  have hc : (containerSig hdr ++ (be32 sz ++ jxlcTag ++ tail)).take 4 = [0, 0, 0, 12] := by
    rw [show containerSig hdr ++ (be32 sz ++ jxlcTag ++ tail)
        = [0, 0, 0, 12] ++ (hdr ++ (be32 sz ++ jxlcTag ++ tail)) from by simp [containerSig]]
    exact List.take_left' rfl
  have hmin : min 12 (containerSig hdr ++ (be32 sz ++ jxlcTag ++ tail)).length
      = (containerSig hdr).length := by
    rw [hsig]
    simp only [List.length_append]
    omega
  have hrb : read_box (containerSig hdr ++ (be32 sz ++ jxlcTag ++ tail))
      (containerSig hdr).length
      = .box jxlcTag sz 8 ((containerSig hdr).length : Int)
          ((containerSig hdr).length + 8) :=
    read_box_at32 _ (containerSig hdr) jxlcTag tail sz _ (by simp) rfl
      jxlcTag_length (by omega) hne1
  have hstep : collectStep (containerSig hdr ++ (be32 sz ++ jxlcTag ++ tail))
      (containerSig hdr).length = .err := by
    simp only [collectStep, hrb, Nat.cast_ofNat, if_true, if_false]
    rw [if_pos (by push_cast; omega)]
  have hloop : collectLoop (containerSig hdr ++ (be32 sz ++ jxlcTag ++ tail)) (fuel + 1)
      (min 12 (containerSig hdr ++ (be32 sz ++ jxlcTag ++ tail)).length) [] = .err := by
    rw [hmin, collectLoop_succ, hstep]
  have hb := extractBody_container_err (fuel + 1) _ hc hloop
  exact ⟨hb, part1 _ _ _ _ hb⟩

/-- Witness for C9: a truncated extended-size box (short struct read)
through the general conjunct, and a jxlc box with size field 0 followed
by FF 0A 07 — the payload read length would be -8, which raises
ValueError in the program; both calls return false with no output. -/
theorem c9_witness :
    extract_codestream 5
        [0, 0, 0, 12, 74, 88, 76, 32, 13, 10, 135, 10,
         0, 0, 0, 1, 97, 98, 99, 100, 1, 2, 3]
      = some ⟨none, false⟩
    ∧ extract_codestream 1
        (containerSig [74, 88, 76, 32, 13, 10, 135, 10]
          ++ (be32 0 ++ jxlcTag ++ [255, 10, 7]))
      = some ⟨none, false⟩ :=
  ⟨c9_exception_means_false.1 5
     [0, 0, 0, 12, 74, 88, 76, 32, 13, 10, 135, 10,
      0, 0, 0, 1, 97, 98, 99, 100, 1, 2, 3] none () (by rfl),
   (c9_exception_means_false.2 [74, 88, 76, 32, 13, 10, 135, 10] [255, 10, 7] 0 0
     (by decide) (by decide) (by decide)).2⟩

/-- C1: for a container whose payload-bearing boxes are all jxlp boxes
(other box types being skipped, and at least one jxlp box present), the
output is the concatenation of the jxlp payloads sorted stably ascending
by index; and whenever the indices are pairwise distinct, permuting the
boxes in the file leaves the output unchanged — in particular file order
[2,0,1] yields index order [0,1,2]. -/
theorem c1_jxlp_sorted_reassembly (hdr : List Nat) (specs : List BoxSpec) (fuel : Nat)
    (h8 : hdr.length = 8) (hwf : ∀ s ∈ specs, WFBox s)
    (hnj : ∀ q, BoxSpec.jxlc q ∉ specs) (hne : fileSegs specs ≠ []) :
    extract_codestream (fuel + specs.length + 1) (mkContainer hdr specs)
      = some ⟨some (sortedConcat (fileSegs specs)),
              if (sortedConcat (fileSegs specs)).take 2 = [255, 10] then true else false⟩
    ∧ (∀ (specs2 : List BoxSpec) (fuel2 : Nat), specs.Perm specs2 →
        ((fileSegs specs).map Prod.fst).Nodup →
        extract_codestream (fuel2 + specs2.length + 1) (mkContainer hdr specs2)
          = some ⟨some (sortedConcat (fileSegs specs)),
                  if (sortedConcat (fileSegs specs)).take 2 = [255, 10] then true
                  else false⟩) := by
  have main : ∀ (sp : List BoxSpec) (f : Nat), (∀ s ∈ sp, WFBox s) →
      (∀ q, BoxSpec.jxlc q ∉ sp) → fileSegs sp ≠ [] →
      extract_codestream (f + sp.length + 1) (mkContainer hdr sp)
        = some ⟨some (sortedConcat (fileSegs sp)),
                if (sortedConcat (fileSegs sp)).take 2 = [255, 10] then true
                else false⟩ := by
    intro sp f hw hn hne2
    have h := extract_mkContainer hdr sp f h8 hw hn
    rw [if_neg hne2, mergeParts_eq_sortedConcat] at h
    exact h
  refine ⟨main specs fuel hwf hnj hne, ?_⟩
  intro specs2 fuel2 hperm hnodup
  have hw2 : ∀ s ∈ specs2, WFBox s := fun s hs => hwf s (hperm.mem_iff.mpr hs)
  have hn2 : ∀ q, BoxSpec.jxlc q ∉ specs2 := fun q hq => hnj q (hperm.mem_iff.mpr hq)
  have hsp : (fileSegs specs).Perm (fileSegs specs2) := fileSegs_perm specs specs2 hperm
  have hne2 : fileSegs specs2 ≠ [] := by
    intro h0
    rw [h0] at hsp
    exact hne hsp.eq_nil
  have h := main specs2 fuel2 hw2 hn2 hne2
  rw [h, sortedConcat_perm_eq (fileSegs specs) (fileSegs specs2) hsp hnodup]

/-- Witness for C1: three jxlp boxes with file-order indices [2,0,1] and
payloads [7,7], [FF,0A,01], [9]; the output is the payload concatenation
in index order [0,1,2]. -/
theorem c1_witness :
    extract_codestream 4 (mkContainer [74, 88, 76, 32, 13, 10, 135, 10]
        [BoxSpec.jxlp 2 [7, 7], BoxSpec.jxlp 0 [255, 10, 1], BoxSpec.jxlp 1 [9]])
      = some ⟨some [255, 10, 1, 9, 7, 7], true⟩ := by
  have h := (c1_jxlp_sorted_reassembly [74, 88, 76, 32, 13, 10, 135, 10]
      [BoxSpec.jxlp 2 [7, 7], BoxSpec.jxlp 0 [255, 10, 1], BoxSpec.jxlp 1 [9]] 0
      (by decide) (by decide) (by intro q; simp) (by decide)).1
  exact h.trans (by decide)

/-- C2: a jxlc box short-circuits the scan: the collected segments are
exactly the single segment (0, payload), the bytes following the jxlc box
(junk of arbitrary content, never read) do not affect the result, and the
bytes of the skipped boxes before it do not reach the output, which is
exactly the jxlc payload. -/
theorem c2_jxlc_short_circuit (hdr : List Nat) (pres : List BoxSpec) (p junk : List Nat)
    (fuel : Nat) (h8 : hdr.length = 8)
    (hwf : ∀ s ∈ pres, WFBox s) (hother : ∀ s ∈ pres, ∃ t q, s = BoxSpec.other t q)
    (hp : 8 + p.length < 2 ^ 32) :
    collectLoop (containerSig hdr ++ boxBytes pres ++ serializeBox (.jxlc p) ++ junk)
        (fuel + pres.length + 1) (containerSig hdr).length [] = .done [(0, p)]
    ∧ extract_codestream (fuel + pres.length + 1)
        (containerSig hdr ++ boxBytes pres ++ serializeBox (.jxlc p) ++ junk)
      = some ⟨some p, if p.take 2 = [255, 10] then true else false⟩ := by
  have hnj : ∀ q, BoxSpec.jxlc q ∉ pres := by
    intro q hq
    obtain ⟨t, r, heq⟩ := hother _ hq
    exact absurd heq (by simp)
  have hsegs : fileSegs pres = [] := fileSegs_nil_of_other pres hother
  constructor
  · rw [show fuel + pres.length + 1 = (fuel + 1) + pres.length from by omega,
      collectLoop_skips pres _ (containerSig hdr) (serializeBox (.jxlc p) ++ junk) []
        (fuel + 1) hwf hnj (by simp),
      show (containerSig hdr).length + (boxBytes pres).length
        = (containerSig hdr ++ boxBytes pres).length from by simp,
      collectLoop_jxlc _ (containerSig hdr ++ boxBytes pres) junk p _ fuel (by simp) hp]
    simp [hsegs]
  · have h := extract_jxlc_run hdr pres p junk fuel h8 hwf hnj hp
    rw [hsegs] at h
    simpa [mergeParts_single] using h

/-- Witness for C2: two unrelated boxes precede a jxlc box whose payload
is FF 0A 05, and garbage bytes follow it; the output is exactly the
payload and the scan collects the single segment (0, payload). -/
theorem c2_witness :
    collectLoop (containerSig [74, 88, 76, 32, 13, 10, 135, 10]
        ++ boxBytes [BoxSpec.other [97, 98, 99, 100] [5], BoxSpec.other [102, 116, 121, 112] []]
        ++ serializeBox (.jxlc [255, 10, 5]) ++ [9, 9, 9, 9, 9])
        3 (containerSig [74, 88, 76, 32, 13, 10, 135, 10]).length [] = .done [(0, [255, 10, 5])]
    ∧ extract_codestream 3
        (containerSig [74, 88, 76, 32, 13, 10, 135, 10]
          ++ boxBytes [BoxSpec.other [97, 98, 99, 100] [5], BoxSpec.other [102, 116, 121, 112] []]
          ++ serializeBox (.jxlc [255, 10, 5]) ++ [9, 9, 9, 9, 9])
      = some ⟨some [255, 10, 5], true⟩ := by
  have h := c2_jxlc_short_circuit [74, 88, 76, 32, 13, 10, 135, 10]
      [BoxSpec.other [97, 98, 99, 100] [5], BoxSpec.other [102, 116, 121, 112] []]
      [255, 10, 5] [9, 9, 9, 9, 9] 0 (by decide) (by decide)
      (by intro s hs; fin_cases hs <;> exact ⟨_, _, rfl⟩) (by decide)
  exact ⟨h.1, h.2.trans (by decide)⟩

/-- C8 counterexample: a container holding exactly one jxlc box whose
payload is 01 02 03 (and no other payload-bearing boxes); the written
output is that payload, whose first two bytes are not FF 0A, refuting the
unconditional claim that the output begins with FF 0A. -/
theorem c8_counterexample :
    extract_codestream 1
        [0, 0, 0, 12, 74, 88, 76, 32, 13, 10, 135, 10,
         0, 0, 0, 11, 106, 120, 108, 99, 1, 2, 3]
      = some ⟨some [1, 2, 3], false⟩
    ∧ [1, 2, 3].take 2 ≠ [255, 10] := by
  constructor
  · rfl
  · decide

/-- C8 (amended): for a container containing exactly one jxlc box whose
payload has length L and begins with FF 0A, preceded only by
non-payload-bearing boxes and followed by arbitrary bytes, the output is
the payload — length exactly L, first two bytes FF 0A — and success is
reported. -/
theorem c8_single_jxlc_payload (hdr : List Nat) (pres : List BoxSpec) (p junk : List Nat)
    (L fuel : Nat) (h8 : hdr.length = 8)
    (hwf : ∀ s ∈ pres, WFBox s) (hother : ∀ s ∈ pres, ∃ t q, s = BoxSpec.other t q)
    (hp : 8 + p.length < 2 ^ 32) (hL : p.length = L) (hmagic : p.take 2 = [255, 10]) :
    extract_codestream (fuel + pres.length + 1)
        (containerSig hdr ++ boxBytes pres ++ serializeBox (.jxlc p) ++ junk)
      = some ⟨some p, true⟩
    ∧ p.length = L := by
  have hnj : ∀ q, BoxSpec.jxlc q ∉ pres := by
    intro q hq
    obtain ⟨t, r, heq⟩ := hother _ hq
    exact absurd heq (by simp)
  have hsegs : fileSegs pres = [] := fileSegs_nil_of_other pres hother
  have h := extract_jxlc_run hdr pres p junk fuel h8 hwf hnj hp
  rw [hsegs] at h
  simp only [List.nil_append, mergeParts_single] at h
  rw [if_pos hmagic] at h
  exact ⟨h, hL⟩

/-- Witness for C8 (amended): one skipped box, then a jxlc box with the
3-byte payload FF 0A 07, then trailing bytes; output is the payload and
the call succeeds. -/
theorem c8_witness :
    extract_codestream 2
        (containerSig [74, 88, 76, 32, 13, 10, 135, 10]
          ++ boxBytes [BoxSpec.other [97, 98, 99, 100] [1, 2]]
          ++ serializeBox (.jxlc [255, 10, 7]) ++ [4, 4])
      = some ⟨some [255, 10, 7], true⟩
    ∧ ([255, 10, 7] : List Nat).length = 3 :=
  c8_single_jxlc_payload [74, 88, 76, 32, 13, 10, 135, 10]
    [BoxSpec.other [97, 98, 99, 100] [1, 2]] [255, 10, 7] [4, 4] 3 1
    (by decide) (by decide) (by intro s hs; fin_cases hs <;> exact ⟨_, _, rfl⟩)
    (by decide) (by decide) (by decide)

/-- C10: declared payload sizes are not checked against end of file: a
jxlc box declaring n payload bytes when only the shorter `rest` remains
reads exactly the remaining bytes, writes them, and reports success when
they begin with FF 0A; likewise for a jxlp box (whose index is still read
in full). -/
theorem c10_short_read_not_detected (hdr rest : List Nat) (n i fuel : Nat)
    (h8 : hdr.length = 8) (hshort : rest.length < n) (hn : 12 + n < 2 ^ 32)
    (hi : i < 2 ^ 32) (hmagic : rest.take 2 = [255, 10]) :
    extract_codestream (fuel + 1) (containerSig hdr ++ (be32 (8 + n) ++ jxlcTag ++ rest))
      = some ⟨some rest, true⟩
    ∧ extract_codestream (fuel + 2)
        (containerSig hdr ++ (be32 (12 + n) ++ jxlpTag ++ be32 i ++ rest))
      = some ⟨some rest, true⟩ := by
  have hsig : (containerSig hdr).length = 12 := by simp [containerSig, h8]
  constructor
  · have hc : (containerSig hdr ++ (be32 (8 + n) ++ jxlcTag ++ rest)).take 4
        = [0, 0, 0, 12] := by
      rw [show containerSig hdr ++ (be32 (8 + n) ++ jxlcTag ++ rest)
          = [0, 0, 0, 12] ++ (hdr ++ (be32 (8 + n) ++ jxlcTag ++ rest)) from by
        simp [containerSig]]
      exact List.take_left' rfl
    have hmin : min 12 (containerSig hdr ++ (be32 (8 + n) ++ jxlcTag ++ rest)).length
        = (containerSig hdr).length := by
      rw [hsig]
      simp only [List.length_append]
      omega
    have hrb : read_box (containerSig hdr ++ (be32 (8 + n) ++ jxlcTag ++ rest))
        (containerSig hdr).length
        = .box jxlcTag (8 + n) 8 ((containerSig hdr).length : Int)
            ((containerSig hdr).length + 8) :=
      read_box_at32 _ (containerSig hdr) jxlcTag rest (8 + n) _ (by simp) rfl
        jxlcTag_length (by omega) (by omega)
    have hfd : fread (containerSig hdr ++ (be32 (8 + n) ++ jxlcTag ++ rest))
        ((containerSig hdr).length + 8) (((8 + n : Nat) : Int) - 8)
        = (rest, (containerSig hdr).length + 8 + rest.length) :=
      fread_rest _ (containerSig hdr ++ be32 (8 + n) ++ jxlcTag) rest
        ((containerSig hdr).length + 8) _ (by simp)
        (by simp only [List.length_append, be32_length, jxlcTag_length] <;> omega)
        (by push_cast; omega)
    have hstep : collectStep (containerSig hdr ++ (be32 (8 + n) ++ jxlcTag ++ rest))
        (containerSig hdr).length = .last (0, rest) := by
      simp only [collectStep, hrb, Nat.cast_ofNat, if_true, if_false]
      rw [if_neg (by push_cast; omega)]
      simp only [hfd]
    rw [extract_container_eq _ _ hc, hmin, collectLoop_succ, hstep]
    simp [mergeParts_single, hmagic]
  · have hc : (containerSig hdr ++ (be32 (12 + n) ++ jxlpTag ++ be32 i ++ rest)).take 4
        = [0, 0, 0, 12] := by
      rw [show containerSig hdr ++ (be32 (12 + n) ++ jxlpTag ++ be32 i ++ rest)
          = [0, 0, 0, 12] ++ (hdr ++ (be32 (12 + n) ++ jxlpTag ++ be32 i ++ rest)) from by
        simp [containerSig]]
      exact List.take_left' rfl
    have hmin : min 12 (containerSig hdr ++ (be32 (12 + n) ++ jxlpTag ++ be32 i ++ rest)).length
        = (containerSig hdr).length := by
      rw [hsig]
      simp only [List.length_append]
      omega
    have hrb : read_box (containerSig hdr ++ (be32 (12 + n) ++ jxlpTag ++ be32 i ++ rest))
        (containerSig hdr).length
        = .box jxlpTag (12 + n) 8 ((containerSig hdr).length : Int)
            ((containerSig hdr).length + 8) :=
      read_box_at32 _ (containerSig hdr) jxlpTag (be32 i ++ rest) (12 + n) _ (by simp) rfl
        jxlpTag_length (by omega) (by omega)
    have hfi : fread (containerSig hdr ++ (be32 (12 + n) ++ jxlpTag ++ be32 i ++ rest))
        ((containerSig hdr).length + 8) 4
        = (be32 i, (containerSig hdr).length + 8 + 4) := by
      have h := fread_at (containerSig hdr ++ (be32 (12 + n) ++ jxlpTag ++ be32 i ++ rest))
        (containerSig hdr ++ be32 (12 + n) ++ jxlpTag) (be32 i) rest
        ((containerSig hdr).length + 8) 4 (by simp)
        (by simp only [List.length_append, be32_length, jxlpTag_length] <;> omega)
        (by simp [be32_length])
      rw [be32_length] at h
      exact h
    have hfd : fread (containerSig hdr ++ (be32 (12 + n) ++ jxlpTag ++ be32 i ++ rest))
        ((containerSig hdr).length + 8 + 4) (((12 + n : Nat) : Int) - 8 - 4)
        = (rest, (containerSig hdr).length + 8 + 4 + rest.length) :=
      fread_rest _ (containerSig hdr ++ be32 (12 + n) ++ jxlpTag ++ be32 i) rest
        ((containerSig hdr).length + 8 + 4) _ (by simp)
        (by simp only [List.length_append, be32_length, jxlpTag_length] <;> omega)
        (by push_cast; omega)
    have hstep : collectStep (containerSig hdr ++ (be32 (12 + n) ++ jxlpTag ++ be32 i ++ rest))
        (containerSig hdr).length
        = .next (some (i, rest)) ((containerSig hdr).length + 8 + 4 + rest.length) := by
      simp only [collectStep, hrb, Nat.cast_ofNat]
      simp only [hfi, be32_length, lt_irrefl, if_false, hfd, beVal_be32 i hi]
      rw [if_neg (by decide), if_pos trivial, if_neg (by push_cast; omega)]
    have hlen : (containerSig hdr ++ (be32 (12 + n) ++ jxlpTag ++ be32 i ++ rest)).length
        ≤ (containerSig hdr).length + 8 + 4 + rest.length := by
      simp only [List.length_append, be32_length, jxlpTag_length]
      omega
    rw [extract_container_eq _ _ hc, hmin,
      show fuel + 2 = (fuel + 1) + 1 from rfl, collectLoop_succ, hstep]
    simp only [Option.toList_some, List.nil_append]
    rw [collectLoop_eof _ fuel _ _ hlen]
    simp [mergeParts_single, hmagic]

/-- Witness for C10: a jxlc box declaring 5 payload bytes with only
FF 0A 09 remaining, and a jxlp box declaring 5 payload bytes with index 7
and the same 3 remaining bytes; both outputs are the remaining bytes with
success reported. -/
theorem c10_witness :
    extract_codestream 1 (containerSig [74, 88, 76, 32, 13, 10, 135, 10]
        ++ (be32 (8 + 5) ++ jxlcTag ++ [255, 10, 9]))
      = some ⟨some [255, 10, 9], true⟩
    ∧ extract_codestream 2 (containerSig [74, 88, 76, 32, 13, 10, 135, 10]
        ++ (be32 (12 + 5) ++ jxlpTag ++ be32 7 ++ [255, 10, 9]))
      = some ⟨some [255, 10, 9], true⟩ :=
  c10_short_read_not_detected [74, 88, 76, 32, 13, 10, 135, 10] [255, 10, 9] 5 7 0
    (by decide) (by decide) (by decide) (by decide) (by decide)

/-- C6: a 32-bit size field equal to 1 makes `read_box` read 8 further
bytes as a big-endian extended size V and report header length 16, and a
skipped extended-size box advances the cursor to start + V (span V, not
8); any other size field keeps header length 8, the header ending 8 bytes
in with no extended field read, whatever bytes follow. -/
theorem c6_extended_size_box (pre tag tail tail2 s4 : List Nat) (v : Nat)
    (h4 : tag.length = 4) (hv : v < 2 ^ 64)
    (hnc : tag ≠ jxlcTag) (hnp : tag ≠ jxlpTag)
    (hs4 : s4.length = 4) (hne1 : beVal s4 ≠ 1) :
    read_box (pre ++ be32 1 ++ tag ++ be64 v ++ tail) pre.length
      = .box tag v 16 (pre.length : Int) (pre.length + 16)
    ∧ collectStep (pre ++ be32 1 ++ tag ++ be64 v ++ tail) pre.length
      = .next none (pre.length + v)
    ∧ read_box (pre ++ s4 ++ tag ++ tail2) pre.length
      = .box tag (beVal s4) 8 (pre.length : Int) (pre.length + 8) := by
  have h1 := read_box_ext (pre ++ be32 1 ++ tag ++ be64 v ++ tail) pre tag tail v
    pre.length rfl rfl h4 hv
  refine ⟨h1, ?_, read_box_at (pre ++ s4 ++ tag ++ tail2) pre s4 tag tail2 pre.length
    rfl rfl hs4 h4 hne1⟩
  simp only [collectStep, h1]
  rw [if_neg hnc, if_neg hnp, if_neg (by omega)]
  simp only [StepRes.next.injEq, true_and] <;> omega

/-- Witness for C6: an extended-size box of extended size 5 with tag
"abcd" skipped with span 5, and a normal box with size field 20. -/
theorem c6_witness :
    read_box ([] ++ be32 1 ++ [97, 98, 99, 100] ++ be64 5 ++ [1, 2]) 0
      = .box [97, 98, 99, 100] 5 16 0 16
    ∧ collectStep ([] ++ be32 1 ++ [97, 98, 99, 100] ++ be64 5 ++ [1, 2]) 0
      = .next none 5
    ∧ read_box ([] ++ [0, 0, 0, 20] ++ [97, 98, 99, 100] ++ [9]) 0
      = .box [97, 98, 99, 100] 20 8 0 8 :=
  c6_extended_size_box [] [97, 98, 99, 100] [1, 2] [9] [0, 0, 0, 20] 5
    (by decide) (by decide) (by decide) (by decide) (by decide) (by decide)

/-- C5 counterexample: a skipped box whose declared size field is 0 makes
the next header read position equal the box's start offset (both 0),
refuting the claim that the position of the next header read is strictly
greater than the processed box's start offset; on such an input the
source loop re-reads the same header forever. -/
theorem c5_counterexample :
    ¬ (∀ (inp : List Nat) (pos : Nat) (t : List Nat) (sz hd : Nat) (st : Int)
         (posA : Nat) (seg : Option (Nat × List Nat)) (p2 : Nat),
        read_box inp pos = .box t sz hd st posA →
        collectStep inp pos = .next seg p2 → st < (p2 : Int)) := by
  intro h
  have h1 : read_box [0, 0, 0, 0, 97, 98, 99, 100] 0
      = .box [97, 98, 99, 100] 0 8 0 8 := by decide
  have h2 : collectStep [0, 0, 0, 0, 97, 98, 99, 100] 0 = .next none 0 := by decide
  have h3 := h _ _ _ _ _ _ _ _ _ h1 h2
  norm_num at h3

/-- C5 (amended): whenever the collection loop continues after a box, the
next header read position is at least the box's start offset, and
strictly greater whenever the box's resolved size is nonzero; a skipped
box of resolved size 0 resumes exactly at its own start offset, the
latent non-termination noted in the spec. -/
theorem c5_cursor_never_retreats (inp : List Nat) (pos : Nat) (t : List Nat)
    (sz hd : Nat) (st : Int) (posA : Nat) (seg : Option (Nat × List Nat)) (p2 : Nat)
    (hbox : read_box inp pos = .box t sz hd st posA)
    (hstep : collectStep inp pos = .next seg p2) :
    st ≤ (p2 : Int) ∧ (sz ≠ 0 → st < (p2 : Int)) := by
  obtain ⟨hst, hhd⟩ := read_box_start inp pos t sz hd st posA hbox
  simp only [collectStep, hbox] at hstep
  by_cases hc : t = jxlcTag
  · rw [if_pos hc] at hstep
    by_cases hg : (sz : Int) - hd < -1
    · rw [if_pos hg] at hstep
      exact absurd hstep (by simp)
    · rw [if_neg hg] at hstep
      exact absurd hstep (by simp)
  · rw [if_neg hc] at hstep
    by_cases hp : t = jxlpTag
    · rw [if_pos hp] at hstep
      by_cases hl : (fread inp posA 4).1.length < 4
      · rw [if_pos hl] at hstep
        exact absurd hstep (by simp)
      · rw [if_neg hl] at hstep
        by_cases hg : (sz : Int) - hd - 4 < -1
        · rw [if_pos hg] at hstep
          exact absurd hstep (by simp)
        · rw [if_neg hg] at hstep
          simp only [StepRes.next.injEq] at hstep
          obtain ⟨-, hp2⟩ := hstep
          have e1 := (fread_spec inp posA 4).1
          have e3 := (fread_spec inp (fread inp posA 4).2 ((sz : Int) - hd - 4)).1
          omega
    · rw [if_neg hp] at hstep
      by_cases hneg : st + (sz : Int) < 0
      · rw [if_pos hneg] at hstep
        exact absurd hstep (by simp)
      · rw [if_neg hneg] at hstep
        simp only [StepRes.next.injEq] at hstep
        obtain ⟨-, hp2⟩ := hstep
        have ht : ((st + (sz : Int)).toNat : Int) = st + sz :=
          Int.toNat_of_nonneg (by omega)
        omega

/-- Witness for C5 (amended): a skipped box of declared size 9 starting
at offset 0; the next header read position 9 is at least, and strictly
beyond, the start offset 0. -/
theorem c5_witness :
    (0 : Int) ≤ ((9 : Nat) : Int) ∧ ((9 : Nat) ≠ 0 → (0 : Int) < ((9 : Nat) : Int)) :=
  c5_cursor_never_retreats [0, 0, 0, 9, 97, 98, 99, 100, 5] 0 [97, 98, 99, 100] 9 8 0 8
    none 9 (by decide) (by decide)

end JxlContainerFixer
